import Mathlib

/-!
Shallow embedding of the numeric core of the OpenModes boundary-element solver
(file core_cython.pyx) together with theorems about the face-to-RWG basis
conversion, the plane-wave source integral and the excitation-vector assembly.

Machine floating-point arithmetic is modelled by exact real and complex
arithmetic; indices are natural numbers.  The parallel loops of
voltage_plane_wave write disjoint cells of their output buffers, so they are
modelled as folds of buffer-update steps over an explicit iteration schedule;
the production schedule is List.range and schedule independence is proved.
-/

noncomputable section

namespace OpenModes

/-- Model of the cexp routine of core_cython.pyx: the complex exponential
synthesised from the real exp, cos and sin, as
exp(creal z) * (cos(cimag z) + I * sin(cimag z)). -/
def cexp (z : ℂ) : ℂ :=
  (Real.exp z.re : ℂ) * ((Real.cos z.im : ℂ) + Complex.I * (Real.sin z.im : ℂ))

/-- Model of dot_product_complex_real: the loop
for counter in range(length): result += a[counter] * b[counter]
accumulating a complex result from a complex and a real array. -/
def dot_product_complex_real (length : ℕ) (a : Fin length → ℂ) (b : Fin length → ℝ) : ℂ :=
  (List.finRange length).foldl (fun result counter => result + a counter * (b counter : ℂ)) 0

/-- Model of source_integral_plane_wave: for each quadrature point the
barycentric coordinates (xi, eta, 1 - eta - xi) give the cartesian point r_o,
rho_o[a] = r_o - nodes_o[a], jkr = jk_inc . r_o, e_r = cexp(-jkr) * e_inc and
I[a] accumulates dot(e_r, rho_o[a]) * w_o.  The output buffer is first zeroed
(I[:] = 0.0 in the source), so it is modelled as a return value. -/
def source_integral_plane_wave (xi_eta_o : List (ℝ × ℝ)) (weights_o : List ℝ)
    (nodes_o : Fin 3 → Fin 3 → ℝ) (jk_inc : Fin 3 → ℂ) (e_inc : Fin 3 → ℂ) :
    Fin 3 → ℂ :=
  (List.range xi_eta_o.length).foldl
    (fun I count_o =>
      let w_o : ℝ := weights_o.getD count_o 0
      let xi_o : ℝ := (xi_eta_o.getD count_o (0, 0)).1
      let eta_o : ℝ := (xi_eta_o.getD count_o (0, 0)).2
      let zeta_o : ℝ := 1 - eta_o - xi_o
      let r_o : Fin 3 → ℝ := fun index_a =>
        xi_o * nodes_o 0 index_a + eta_o * nodes_o 1 index_a + zeta_o * nodes_o 2 index_a
      let rho_o : Fin 3 → Fin 3 → ℝ := fun index_a index_b => r_o index_b - nodes_o index_a index_b
      let jkr : ℂ := dot_product_complex_real 3 jk_inc r_o
      let exp_jkr : ℂ := cexp (-jkr)
      let e_r : Fin 3 → ℂ := fun index_a => exp_jkr * e_inc index_a
      fun index_a => I index_a + dot_product_complex_real 3 e_r (rho_o index_a) * (w_o : ℂ))
    (fun _ => 0)

/-- One RWG basis function: the plus and minus triangles sharing its edge and
the local indices of their free (unshared) nodes.  The source passes these as
four parallel integer arrays basis_tri_p, basis_tri_m, basis_node_p,
basis_node_m; here they form one record per basis function. -/
structure BasisEntry where
  tri_p : ℕ
  tri_m : ℕ
  node_p : ℕ
  node_m : ℕ
deriving DecidableEq

/-- Value read for an index beyond the basis table (never used in range). -/
def defaultBasis : BasisEntry := ⟨0, 0, 0, 0⟩

/-- Model of triangle_face_to_rwg: the dense double loop over basis pairs,
combining the face tensors with the plus/minus sign pattern of the source.
Bounds checking is disabled in the source (cython.boundscheck(False)), so the
face tensors are modelled as total functions on indices: reading an index that
is outside the intended tensor extent silently yields whatever value the
extension holds there, exactly as the unchecked memory access does. -/
def triangle_face_to_rwg (basis : List BasisEntry)
    (vector_face : ℕ → ℕ → ℕ → ℕ → ℂ) (scalar_face : ℕ → ℕ → ℂ) :
    List (List ℂ) × List (List ℂ) :=
  let num_basis := basis.length
  ((List.range num_basis).map fun m =>
    (List.range num_basis).map fun n =>
      let bm := basis.getD m defaultBasis
      let bn := basis.getD n defaultBasis
      vector_face bm.tri_p bn.tri_p bm.node_p bn.node_p
        - vector_face bm.tri_p bn.tri_m bm.node_p bn.node_m
        - vector_face bm.tri_m bn.tri_p bm.node_m bn.node_p
        + vector_face bm.tri_m bn.tri_m bm.node_m bn.node_m,
   (List.range num_basis).map fun m =>
    (List.range num_basis).map fun n =>
      let bm := basis.getD m defaultBasis
      let bn := basis.getD n defaultBasis
      (- scalar_face bm.tri_m bn.tri_p + scalar_face bm.tri_m bn.tri_m
        + scalar_face bm.tri_p bn.tri_p - scalar_face bm.tri_p bn.tri_m))

/-- The observer triangle gathered for face p:
nodes_p[m, q] = nodes[triangle_nodes[p, m], q]. -/
def gather_nodes (nodes : ℕ → Fin 3 → ℝ) (triangle_nodes : List (Fin 3 → ℕ)) (p : ℕ) :
    Fin 3 → Fin 3 → ℝ :=
  fun m q => nodes ((triangle_nodes.getD p fun _ => 0) m) q

/-- The value written into row p of V_face: the source integral over
triangle p with the given quadrature rule and incident plane wave. -/
def face_value (xi_eta_eval : List (ℝ × ℝ)) (weights : List ℝ) (nodes : ℕ → Fin 3 → ℝ)
    (triangle_nodes : List (Fin 3 → ℕ)) (jk_inc e_inc : Fin 3 → ℂ) (p : ℕ) : Fin 3 → ℂ :=
  source_integral_plane_wave xi_eta_eval weights (gather_nodes nodes triangle_nodes p) jk_inc e_inc

/-- One iteration of the per-triangle parallel loop of voltage_plane_wave:
iteration p overwrites row p of the V_face buffer with the source integral of
triangle p and touches nothing else. -/
def V_face_step (xi_eta_eval : List (ℝ × ℝ)) (weights : List ℝ) (nodes : ℕ → Fin 3 → ℝ)
    (triangle_nodes : List (Fin 3 → ℕ)) (jk_inc e_inc : Fin 3 → ℂ)
    (buf : ℕ → Fin 3 → ℂ) (p : ℕ) : ℕ → Fin 3 → ℂ :=
  Function.update buf p (face_value xi_eta_eval weights nodes triangle_nodes jk_inc e_inc p)

/-- The per-triangle loop run over an explicit schedule of face indices,
starting from a zeroed buffer (np.zeros in the source). -/
def assemble_V_face (xi_eta_eval : List (ℝ × ℝ)) (weights : List ℝ) (nodes : ℕ → Fin 3 → ℝ)
    (triangle_nodes : List (Fin 3 → ℕ)) (jk_inc e_inc : Fin 3 → ℂ)
    (sched : List ℕ) : ℕ → Fin 3 → ℂ :=
  sched.foldl (V_face_step xi_eta_eval weights nodes triangle_nodes jk_inc e_inc) (fun _ _ => 0)

/-- Reading component i of a row of V_face.  Basis node indices are in-range
(0 to 2) by precondition; the out-of-range branch is never exercised under the
hypotheses of the theorems below. -/
def getc (row : Fin 3 → ℂ) (i : ℕ) : ℂ :=
  if h : i < 3 then row ⟨i, h⟩ else 0

/-- The value written into cell m of V:
V[m] = V_face[basis_tri_p[m], basis_node_p[m]] - V_face[basis_tri_m[m], basis_node_m[m]]. -/
def Vval (basis : List BasisEntry) (V_face : ℕ → Fin 3 → ℂ) (m : ℕ) : ℂ :=
  let b := basis.getD m defaultBasis
  getc (V_face b.tri_p) b.node_p - getc (V_face b.tri_m) b.node_m

/-- One iteration of the per-basis parallel loop of voltage_plane_wave:
iteration m overwrites cell m of the V buffer and touches nothing else. -/
def V_step (basis : List BasisEntry) (V_face : ℕ → Fin 3 → ℂ)
    (buf : ℕ → ℂ) (m : ℕ) : ℕ → ℂ :=
  Function.update buf m (Vval basis V_face m)

/-- The per-basis loop run over an explicit schedule of basis indices,
starting from a zeroed buffer (np.zeros in the source). -/
def assemble_V (basis : List BasisEntry) (V_face : ℕ → Fin 3 → ℂ) (sched : List ℕ) : ℕ → ℂ :=
  sched.foldl (V_step basis V_face) (fun _ => 0)

/-- voltage_plane_wave with explicit iteration schedules for its two parallel
loops; the dynamic OpenMP schedule of the source processes the indices in an
unspecified order, modelled by the schedule parameters. -/
def voltage_plane_wave_sched (nodes : ℕ → Fin 3 → ℝ) (triangle_nodes : List (Fin 3 → ℕ))
    (basis : List BasisEntry) (xi_eta_eval : List (ℝ × ℝ)) (weights : List ℝ)
    (e_inc jk_inc : Fin 3 → ℂ) (sched_faces sched_basis : List ℕ) : List ℂ :=
  let V_face := assemble_V_face xi_eta_eval weights nodes triangle_nodes jk_inc e_inc sched_faces
  let V := assemble_V basis V_face sched_basis
  (List.range basis.length).map V

/-- Model of voltage_plane_wave: both parallel loops run over their full index
ranges and the V buffer is returned as a list of length num_basis. -/
def voltage_plane_wave (nodes : ℕ → Fin 3 → ℝ) (triangle_nodes : List (Fin 3 → ℕ))
    (basis : List BasisEntry) (xi_eta_eval : List (ℝ × ℝ)) (weights : List ℝ)
    (e_inc jk_inc : Fin 3 → ℂ) : List ℂ :=
  voltage_plane_wave_sched nodes triangle_nodes basis xi_eta_eval weights e_inc jk_inc
    (List.range triangle_nodes.length) (List.range basis.length)

/-- The cartesian quadrature point of rule entry c inside the triangle with
node matrix nodes_o: the barycentric combination of the three nodes, the
third barycentric coordinate being 1 - xi - eta.  Used to state the
specification formulas. -/
def quad_r (xi_eta_o : List (ℝ × ℝ)) (nodes_o : Fin 3 → Fin 3 → ℝ) (c : ℕ) (i : Fin 3) : ℝ :=
  let xi := (xi_eta_o.getD c (0, 0)).1
  let eta := (xi_eta_o.getD c (0, 0)).2
  xi * nodes_o 0 i + eta * nodes_o 1 i + (1 - xi - eta) * nodes_o 2 i

/-- The contribution of quadrature point c to component index_a of the source
integral, exactly as computed inside the loop of source_integral_plane_wave. -/
def point_contrib (xi_eta_o : List (ℝ × ℝ)) (weights_o : List ℝ)
    (nodes_o : Fin 3 → Fin 3 → ℝ) (jk_inc : Fin 3 → ℂ) (e_inc : Fin 3 → ℂ)
    (count_o : ℕ) (index_a : Fin 3) : ℂ :=
  let w_o : ℝ := weights_o.getD count_o 0
  let xi_o : ℝ := (xi_eta_o.getD count_o (0, 0)).1
  let eta_o : ℝ := (xi_eta_o.getD count_o (0, 0)).2
  let zeta_o : ℝ := 1 - eta_o - xi_o
  let r_o : Fin 3 → ℝ := fun index_a =>
    xi_o * nodes_o 0 index_a + eta_o * nodes_o 1 index_a + zeta_o * nodes_o 2 index_a
  let rho_o : Fin 3 → Fin 3 → ℝ := fun index_a index_b => r_o index_b - nodes_o index_a index_b
  let jkr : ℂ := dot_product_complex_real 3 jk_inc r_o
  let exp_jkr : ℂ := cexp (-jkr)
  let e_r : Fin 3 → ℂ := fun index_a => exp_jkr * e_inc index_a
  dot_product_complex_real 3 e_r (rho_o index_a) * (w_o : ℂ)

/-! Helper lemmas shared by the claim theorems. -/

/-- Folding plus-accumulation over a list computes the list sum. -/
lemma foldl_add_eq_sum {α : Type} (g : α → ℂ) (l : List α) (x : ℂ) :
    l.foldl (fun r c => r + g c) x = x + (l.map g).sum := by
  induction l generalizing x with
  | nil => simp
  | cons a t ih => simp [List.foldl_cons, ih, add_assoc]

/-- The optimized dot product equals the corresponding finite sum. -/
lemma dot_product_complex_real_eq_sum (n : ℕ) (a : Fin n → ℂ) (b : Fin n → ℝ) :
    dot_product_complex_real n a b = ∑ i, a i * (b i : ℂ) := by
  unfold dot_product_complex_real
  rw [foldl_add_eq_sum]
  simp [Fin.sum_univ_def]

/-- Pointwise plus-accumulation of a three-component buffer over a list of
quadrature indices computes, in each component, the sum of the contributions. -/
lemma foldl_pointwise_add (g : ℕ → Fin 3 → ℂ) (l : List ℕ) (init : Fin 3 → ℂ) (a : Fin 3) :
    (l.foldl (fun I c => fun ia => I ia + g c ia) init) a = init a + (l.map fun c => g c a).sum := by
  induction l generalizing init with
  | nil => simp
  | cons x t ih => simp [List.foldl_cons, ih, add_assoc]

/-- Mapping over List.range and summing equals the Finset.range sum. -/
lemma list_range_map_sum (n : ℕ) (f : ℕ → ℂ) :
    ((List.range n).map f).sum = ∑ c ∈ Finset.range n, f c := by
  induction n with
  | zero => simp
  | succ k ih => rw [List.range_succ]; simp [ih, Finset.sum_range_succ]

/-- The synthesized complex exponential agrees with the mathematical one. -/
lemma cexp_eq_complex_exp (z : ℂ) : cexp z = Complex.exp z := by
  unfold cexp
  rw [Complex.exp_eq_exp_re_mul_sin_add_cos, Complex.ofReal_exp, Complex.ofReal_cos,
    Complex.ofReal_sin]
  ring

/-- The accumulation loop of the source integral, written as a closed sum:
each component of the result is the sum over quadrature points of
(rho . e_r) * w with e_r the exact plane-wave value exp(-(jk_inc . r)) e_inc. -/
lemma source_integral_plane_wave_eq_sum (xi_eta_o : List (ℝ × ℝ)) (weights_o : List ℝ)
    (nodes_o : Fin 3 → Fin 3 → ℝ) (jk_inc e_inc : Fin 3 → ℂ) (a : Fin 3) :
    source_integral_plane_wave xi_eta_o weights_o nodes_o jk_inc e_inc a =
      ∑ c ∈ Finset.range xi_eta_o.length,
        (∑ i, ((quad_r xi_eta_o nodes_o c i - nodes_o a i : ℝ) : ℂ) *
          (Complex.exp (-(∑ k, jk_inc k * ((quad_r xi_eta_o nodes_o c k : ℝ) : ℂ))) * e_inc i)) *
        ((weights_o.getD c 0 : ℝ) : ℂ) := by
  have h : source_integral_plane_wave xi_eta_o weights_o nodes_o jk_inc e_inc a =
      (List.range xi_eta_o.length).foldl
        (fun I c => fun ia => I ia + point_contrib xi_eta_o weights_o nodes_o jk_inc e_inc c ia)
        (fun _ => 0) a := rfl
  rw [h, foldl_pointwise_add, list_range_map_sum]
  simp only [zero_add]
  refine Finset.sum_congr rfl fun c _ => ?_
  simp only [point_contrib]
  rw [dot_product_complex_real_eq_sum, dot_product_complex_real_eq_sum,
    cexp_eq_complex_exp]
  have hr : ∀ i : Fin 3,
      (xi_eta_o.getD c (0, 0)).1 * nodes_o 0 i + (xi_eta_o.getD c (0, 0)).2 * nodes_o 1 i +
        (1 - (xi_eta_o.getD c (0, 0)).2 - (xi_eta_o.getD c (0, 0)).1) * nodes_o 2 i =
      quad_r xi_eta_o nodes_o c i := by
    intro i
    unfold quad_r
    ring
  simp only [hr]
  rw [Finset.sum_mul, Finset.sum_mul]
  refine Finset.sum_congr rfl fun i _ => ?_
  push_cast
  ring

/-- Folding single-cell buffer updates over a schedule: a cell holds the value
of its own iteration when that iteration was scheduled, and its initial value
otherwise. -/
lemma foldl_update_char {α : Type} (f : ℕ → α) (l : List ℕ) (init : ℕ → α) (q : ℕ) :
    (l.foldl (fun buf p => Function.update buf p (f p)) init) q =
      if q ∈ l then f q else init q := by
  induction l generalizing init with
  | nil => simp
  | cons a t ih =>
    rw [List.foldl_cons, ih]
    by_cases hq : q ∈ t
    · simp [hq]
    · by_cases hqa : q = a
      · subst hqa
        simp [hq, Function.update_same]
      · simp [hq, hqa, Function.update_noteq]

/-- Row q of the assembled V_face buffer is the source integral of triangle q
when q was scheduled, and the initial zero row otherwise. -/
lemma assemble_V_face_char (xi_eta_eval : List (ℝ × ℝ)) (weights : List ℝ)
    (nodes : ℕ → Fin 3 → ℝ) (triangle_nodes : List (Fin 3 → ℕ)) (jk_inc e_inc : Fin 3 → ℂ)
    (sched : List ℕ) (q : ℕ) :
    assemble_V_face xi_eta_eval weights nodes triangle_nodes jk_inc e_inc sched q =
      if q ∈ sched then face_value xi_eta_eval weights nodes triangle_nodes jk_inc e_inc q
      else fun _ => 0 := by
  exact foldl_update_char
    (face_value xi_eta_eval weights nodes triangle_nodes jk_inc e_inc) sched (fun _ _ => 0) q

/-- Cell m of the assembled V buffer is Vval m when m was scheduled, zero
otherwise. -/
lemma assemble_V_char (basis : List BasisEntry) (V_face : ℕ → Fin 3 → ℂ)
    (sched : List ℕ) (m : ℕ) :
    assemble_V basis V_face sched m = if m ∈ sched then Vval basis V_face m else 0 := by
  exact foldl_update_char (Vval basis V_face) sched (fun _ => 0) m

/-- Reading a cell of a list built by mapping over List.range. -/
lemma range_map_getD {α : Type} (f : ℕ → α) (n m : ℕ) (d : α) (h : m < n) :
    ((List.range n).map f).getD m d = f m := by
  rw [List.getD_eq_getElem?_getD, List.getElem?_map, List.getElem?_range h]
  rfl

/-- Entry m of the excitation vector, in terms of the fully assembled V_face
buffer driven over the full face schedule. -/
lemma voltage_plane_wave_getD (nodes : ℕ → Fin 3 → ℝ) (triangle_nodes : List (Fin 3 → ℕ))
    (basis : List BasisEntry) (xi_eta_eval : List (ℝ × ℝ)) (weights : List ℝ)
    (e_inc jk_inc : Fin 3 → ℂ) (m : ℕ) (hm : m < basis.length) :
    (voltage_plane_wave nodes triangle_nodes basis xi_eta_eval weights e_inc jk_inc).getD m 0 =
      Vval basis
        (assemble_V_face xi_eta_eval weights nodes triangle_nodes jk_inc e_inc
          (List.range triangle_nodes.length)) m := by
  unfold voltage_plane_wave voltage_plane_wave_sched
  rw [range_map_getD _ _ _ _ hm, assemble_V_char]
  simp [List.mem_range, hm]

/-- The excitation vector as a map of Vval over the basis indices. -/
lemma voltage_plane_wave_eq_map (nodes : ℕ → Fin 3 → ℝ) (triangle_nodes : List (Fin 3 → ℕ))
    (basis : List BasisEntry) (xi_eta_eval : List (ℝ × ℝ)) (weights : List ℝ)
    (e_inc jk_inc : Fin 3 → ℂ) :
    voltage_plane_wave nodes triangle_nodes basis xi_eta_eval weights e_inc jk_inc =
      (List.range basis.length).map
        (Vval basis
          (assemble_V_face xi_eta_eval weights nodes triangle_nodes jk_inc e_inc
            (List.range triangle_nodes.length))) := by
  unfold voltage_plane_wave voltage_plane_wave_sched
  refine List.map_congr_left fun m hm => ?_
  rw [assemble_V_char]
  simp only [List.mem_range] at hm
  simp [List.mem_range, hm]

/-- Entry (m, n) of the vector_rwg matrix returned by the converter. -/
lemma triangle_face_to_rwg_vector_entry (basis : List BasisEntry)
    (vector_face : ℕ → ℕ → ℕ → ℕ → ℂ) (scalar_face : ℕ → ℕ → ℂ)
    (m n : ℕ) (hm : m < basis.length) (hn : n < basis.length) :
    (((triangle_face_to_rwg basis vector_face scalar_face).1.getD m []).getD n 0) =
      vector_face (basis.getD m defaultBasis).tri_p (basis.getD n defaultBasis).tri_p
          (basis.getD m defaultBasis).node_p (basis.getD n defaultBasis).node_p
        - vector_face (basis.getD m defaultBasis).tri_p (basis.getD n defaultBasis).tri_m
          (basis.getD m defaultBasis).node_p (basis.getD n defaultBasis).node_m
        - vector_face (basis.getD m defaultBasis).tri_m (basis.getD n defaultBasis).tri_p
          (basis.getD m defaultBasis).node_m (basis.getD n defaultBasis).node_p
        + vector_face (basis.getD m defaultBasis).tri_m (basis.getD n defaultBasis).tri_m
          (basis.getD m defaultBasis).node_m (basis.getD n defaultBasis).node_m := by
  unfold triangle_face_to_rwg
  rw [range_map_getD _ _ _ _ hm, range_map_getD _ _ _ _ hn]

/-- Entry (m, n) of the scalar_rwg matrix returned by the converter. -/
lemma triangle_face_to_rwg_scalar_entry (basis : List BasisEntry)
    (vector_face : ℕ → ℕ → ℕ → ℕ → ℂ) (scalar_face : ℕ → ℕ → ℂ)
    (m n : ℕ) (hm : m < basis.length) (hn : n < basis.length) :
    (((triangle_face_to_rwg basis vector_face scalar_face).2.getD m []).getD n 0) =
      - scalar_face (basis.getD m defaultBasis).tri_m (basis.getD n defaultBasis).tri_p
        + scalar_face (basis.getD m defaultBasis).tri_m (basis.getD n defaultBasis).tri_m
        + scalar_face (basis.getD m defaultBasis).tri_p (basis.getD n defaultBasis).tri_p
        - scalar_face (basis.getD m defaultBasis).tri_p (basis.getD n defaultBasis).tri_m := by
  unfold triangle_face_to_rwg
  rw [range_map_getD _ _ _ _ hm, range_map_getD _ _ _ _ hn]

/-- The matrices returned by the converter are square of size num_basis. -/
lemma triangle_face_to_rwg_shape (basis : List BasisEntry)
    (vector_face : ℕ → ℕ → ℕ → ℕ → ℂ) (scalar_face : ℕ → ℕ → ℂ) :
    (triangle_face_to_rwg basis vector_face scalar_face).1.length = basis.length ∧
    (triangle_face_to_rwg basis vector_face scalar_face).2.length = basis.length ∧
    (∀ row ∈ (triangle_face_to_rwg basis vector_face scalar_face).1,
      row.length = basis.length) ∧
    (∀ row ∈ (triangle_face_to_rwg basis vector_face scalar_face).2,
      row.length = basis.length) := by
  unfold triangle_face_to_rwg
  refine ⟨by simp, by simp, fun row hrow => ?_, fun row hrow => ?_⟩
  · simp only [List.mem_map] at hrow
    obtain ⟨m, _, rfl⟩ := hrow
    simp
  · simp only [List.mem_map] at hrow
    obtain ⟨m, _, rfl⟩ := hrow
    simp

/-- Claim C2: for every basis index table and face tensors and every pair
(m, n) of basis indices, the Face-to-RWG Converter returns
vector_rwg[m, n] and scalar_rwg[m, n] given by the four-term signed
combinations of the face tensors at the plus/minus triangles and free nodes
of m and n, and both returned matrices have exact shape
(num_basis, num_basis). -/
theorem claim_C2_face_to_rwg (basis : List BasisEntry)
    (vector_face : ℕ → ℕ → ℕ → ℕ → ℂ) (scalar_face : ℕ → ℕ → ℂ)
    (m n : ℕ) (hm : m < basis.length) (hn : n < basis.length) :
    ((triangle_face_to_rwg basis vector_face scalar_face).1.length = basis.length ∧
      (triangle_face_to_rwg basis vector_face scalar_face).2.length = basis.length ∧
      (∀ row ∈ (triangle_face_to_rwg basis vector_face scalar_face).1,
        row.length = basis.length) ∧
      (∀ row ∈ (triangle_face_to_rwg basis vector_face scalar_face).2,
        row.length = basis.length)) ∧
    (((triangle_face_to_rwg basis vector_face scalar_face).1.getD m []).getD n 0) =
      vector_face (basis.getD m defaultBasis).tri_p (basis.getD n defaultBasis).tri_p
          (basis.getD m defaultBasis).node_p (basis.getD n defaultBasis).node_p
        - vector_face (basis.getD m defaultBasis).tri_p (basis.getD n defaultBasis).tri_m
          (basis.getD m defaultBasis).node_p (basis.getD n defaultBasis).node_m
        - vector_face (basis.getD m defaultBasis).tri_m (basis.getD n defaultBasis).tri_p
          (basis.getD m defaultBasis).node_m (basis.getD n defaultBasis).node_p
        + vector_face (basis.getD m defaultBasis).tri_m (basis.getD n defaultBasis).tri_m
          (basis.getD m defaultBasis).node_m (basis.getD n defaultBasis).node_m ∧
    (((triangle_face_to_rwg basis vector_face scalar_face).2.getD m []).getD n 0) =
      - scalar_face (basis.getD m defaultBasis).tri_m (basis.getD n defaultBasis).tri_p
        + scalar_face (basis.getD m defaultBasis).tri_m (basis.getD n defaultBasis).tri_m
        + scalar_face (basis.getD m defaultBasis).tri_p (basis.getD n defaultBasis).tri_p
        - scalar_face (basis.getD m defaultBasis).tri_p (basis.getD n defaultBasis).tri_m := by
  exact ⟨triangle_face_to_rwg_shape basis vector_face scalar_face,
    triangle_face_to_rwg_vector_entry basis vector_face scalar_face m n hm hn,
    triangle_face_to_rwg_scalar_entry basis vector_face scalar_face m n hm hn⟩

/-! Concrete fixtures used by witnesses and counterexamples. -/

/-- A one-point quadrature rule at barycentric (0, 0). -/
def xiQ : List (ℝ × ℝ) := [((0 : ℝ), (0 : ℝ))]

/-- Unit weight for the one-point rule. -/
def wQ : List ℝ := [(1 : ℝ)]

/-- Observer triangle with nodes (0,0,0), (0,0,0), (1,0,0). -/
def nodesC1 : Fin 3 → Fin 3 → ℝ := fun a i => if a.val = 2 ∧ i.val = 0 then 1 else 0

/-- Wavevector fixture jk_inc = (1, 0, 0). -/
def jkC1 : Fin 3 → ℂ := fun i => if i.val = 0 then 1 else 0

/-- Field amplitude fixture e_inc = (1, 0, 0). -/
def eC1 : Fin 3 → ℂ := fun i => if i.val = 0 then 1 else 0

/-- Claim C1 (amended): for every non-empty quadrature rule, observer
triangle and complex 3-vectors jk_inc and e_inc, component a of the
Single-Pair Source Integrator result is the sum over quadrature points of
(rho[a] . e_r) * w, where r is the barycentric combination of the triangle
nodes (third coordinate 1 - xi - eta), rho[a] = r - node[a] and
e_r = exp(-(jk_inc . r)) * e_inc.  (The claim as frozen writes the local
field as exp(-j (jk_inc . r)) * e_inc, with an extra factor j in the
exponent; the code applies the complex exponential to -(jk_inc . r)
directly, jk_inc being already the wavevector times j.) -/
theorem claim_C1_source_integral (xi_eta_o : List (ℝ × ℝ)) (weights_o : List ℝ)
    (nodes_o : Fin 3 → Fin 3 → ℝ) (jk_inc e_inc : Fin 3 → ℂ)
    (hne : xi_eta_o ≠ []) (a : Fin 3) :
    source_integral_plane_wave xi_eta_o weights_o nodes_o jk_inc e_inc a =
      ∑ c ∈ Finset.range xi_eta_o.length,
        (∑ i, ((quad_r xi_eta_o nodes_o c i - nodes_o a i : ℝ) : ℂ) *
          (Complex.exp (-(∑ k, jk_inc k * ((quad_r xi_eta_o nodes_o c k : ℝ) : ℂ))) * e_inc i)) *
        ((weights_o.getD c 0 : ℝ) : ℂ) :=
  source_integral_plane_wave_eq_sum xi_eta_o weights_o nodes_o jk_inc e_inc a

/-- Witness for claim C1 at a concrete one-point rule and triangle. -/
theorem claim_C1_witness :
    xiQ ≠ [] ∧
    source_integral_plane_wave xiQ wQ nodesC1 jkC1 eC1 0 =
      ∑ c ∈ Finset.range xiQ.length,
        (∑ i, ((quad_r xiQ nodesC1 c i - nodesC1 0 i : ℝ) : ℂ) *
          (Complex.exp (-(∑ k, jkC1 k * ((quad_r xiQ nodesC1 c k : ℝ) : ℂ))) * eC1 i)) *
        ((wQ.getD c 0 : ℝ) : ℂ) :=
  ⟨List.cons_ne_nil _ _,
    claim_C1_source_integral xiQ wQ nodesC1 jkC1 eC1 (List.cons_ne_nil _ _) 0⟩

/-- Counterexample to claim C1 as frozen: with the extra factor j in the
exponent, literally e_r = exp(-j (jk_inc . r)) * e_inc, the claimed identity
fails at a concrete one-point rule with a real wavevector argument: the code
produces exp(-1) (zero imaginary part) while the claimed sum produces
exp(-j), whose imaginary part is -sin 1, which is nonzero. -/
theorem claim_C1_counterexample :
    ¬ (source_integral_plane_wave xiQ wQ nodesC1 jkC1 eC1 0 =
      ∑ c ∈ Finset.range xiQ.length,
        (∑ i, ((quad_r xiQ nodesC1 c i - nodesC1 0 i : ℝ) : ℂ) *
          (Complex.exp (-(Complex.I *
            ∑ k, jkC1 k * ((quad_r xiQ nodesC1 c k : ℝ) : ℂ))) * eC1 i)) *
        ((wQ.getD c 0 : ℝ) : ℂ)) := by
  intro h
  rw [source_integral_plane_wave_eq_sum] at h
  norm_num [xiQ, wQ, quad_r, nodesC1, jkC1, eC1, Finset.sum_range_succ,
    Fin.sum_univ_three] at h
  have him := congrArg Complex.im h
  simp [Complex.exp_im] at him
  have hs : 0 < Real.sin 1 :=
    Real.sin_pos_of_pos_of_lt_pi one_pos (by linarith [Real.pi_gt_three])
  linarith [him, hs]

/-- Mesh node fixture: all nodes at the origin. -/
def nodesW : ℕ → Fin 3 → ℝ := fun _ _ => 0

/-- Triangle table fixture with two triangles. -/
def trisW : List (Fin 3 → ℕ) := [fun _ => 0, fun _ => 1]

/-- One-basis-function fixture: plus triangle 0, minus triangle 1, free
nodes 0 and 0. -/
def basisW : List BasisEntry := [⟨0, 1, 0, 0⟩]

/-- Zero wavevector fixture. -/
def jkW : Fin 3 → ℂ := fun _ => 0

/-- Zero field fixture. -/
def eW : Fin 3 → ℂ := fun _ => 0

/-- Claim C3: for every mesh, basis index table with in-range indices,
quadrature rule and incident plane-wave parameters, entry m of the returned
excitation vector is
V_face[tri_plus(m), node_plus(m)] - V_face[tri_minus(m), node_minus(m)],
where row p of V_face is the Single-Pair Source Integrator result for the
node coordinates of triangle p. -/
theorem claim_C3_voltage_entry (nodes : ℕ → Fin 3 → ℝ) (triangle_nodes : List (Fin 3 → ℕ))
    (basis : List BasisEntry) (xi_eta_eval : List (ℝ × ℝ)) (weights : List ℝ)
    (e_inc jk_inc : Fin 3 → ℂ) (m : ℕ) (hm : m < basis.length)
    (hp : (basis.getD m defaultBasis).tri_p < triangle_nodes.length)
    (hq : (basis.getD m defaultBasis).tri_m < triangle_nodes.length)
    (hip : (basis.getD m defaultBasis).node_p < 3)
    (him : (basis.getD m defaultBasis).node_m < 3) :
    (voltage_plane_wave nodes triangle_nodes basis xi_eta_eval weights e_inc jk_inc).getD m 0 =
      source_integral_plane_wave xi_eta_eval weights
          (gather_nodes nodes triangle_nodes (basis.getD m defaultBasis).tri_p) jk_inc e_inc
          ⟨(basis.getD m defaultBasis).node_p, hip⟩ -
        source_integral_plane_wave xi_eta_eval weights
          (gather_nodes nodes triangle_nodes (basis.getD m defaultBasis).tri_m) jk_inc e_inc
          ⟨(basis.getD m defaultBasis).node_m, him⟩ := by
  rw [voltage_plane_wave_getD nodes triangle_nodes basis xi_eta_eval weights e_inc jk_inc m hm]
  simp only [Vval]
  rw [assemble_V_face_char, assemble_V_face_char]
  simp only [List.mem_range, hp, hq, if_pos]
  unfold face_value getc
  rw [dif_pos hip, dif_pos him]

/-- Witness for claim C3 on a concrete two-triangle mesh with one basis
function. -/
theorem claim_C3_witness :
    (voltage_plane_wave nodesW trisW basisW xiQ wQ eW jkW).getD 0 0 =
      source_integral_plane_wave xiQ wQ
          (gather_nodes nodesW trisW (basisW.getD 0 defaultBasis).tri_p) jkW eW
          ⟨(basisW.getD 0 defaultBasis).node_p, by decide⟩ -
        source_integral_plane_wave xiQ wQ
          (gather_nodes nodesW trisW (basisW.getD 0 defaultBasis).tri_m) jkW eW
          ⟨(basisW.getD 0 defaultBasis).node_m, by decide⟩ :=
  claim_C3_voltage_entry nodesW trisW basisW xiQ wQ eW jkW 0 (by decide) (by decide)
    (by decide) (by decide) (by decide)

/-- Witness for claim C2 on a concrete one-basis-function table. -/
theorem claim_C2_witness :
    (triangle_face_to_rwg basisW (fun _ _ _ _ => (0 : ℂ)) fun _ _ => (0 : ℂ)).1.length = 1 ∧
    (((triangle_face_to_rwg basisW (fun _ _ _ _ => (0 : ℂ)) fun _ _ => (0 : ℂ)).1.getD 0
        []).getD 0 0) =
      (fun _ _ _ _ => (0 : ℂ)) (basisW.getD 0 defaultBasis).tri_p
          (basisW.getD 0 defaultBasis).tri_p
          (basisW.getD 0 defaultBasis).node_p (basisW.getD 0 defaultBasis).node_p
        - (fun _ _ _ _ => (0 : ℂ)) (basisW.getD 0 defaultBasis).tri_p
          (basisW.getD 0 defaultBasis).tri_m
          (basisW.getD 0 defaultBasis).node_p (basisW.getD 0 defaultBasis).node_m
        - (fun _ _ _ _ => (0 : ℂ)) (basisW.getD 0 defaultBasis).tri_m
          (basisW.getD 0 defaultBasis).tri_p
          (basisW.getD 0 defaultBasis).node_m (basisW.getD 0 defaultBasis).node_p
        + (fun _ _ _ _ => (0 : ℂ)) (basisW.getD 0 defaultBasis).tri_m
          (basisW.getD 0 defaultBasis).tri_m
          (basisW.getD 0 defaultBasis).node_m (basisW.getD 0 defaultBasis).node_m :=
  ⟨(claim_C2_face_to_rwg basisW (fun _ _ _ _ => (0 : ℂ)) (fun _ _ => (0 : ℂ)) 0 0
      (by decide) (by decide)).1.1,
    (claim_C2_face_to_rwg basisW (fun _ _ _ _ => (0 : ℂ)) (fun _ _ => (0 : ℂ)) 0 0
      (by decide) (by decide)).2.1⟩

/-! Claim C4: behaviour of the converter on index tables referencing entries
outside the supplied face tensors.  Bounds checking is disabled in the source
(cython.boundscheck(False) on triangle_face_to_rwg), so such an access is
performed anyway: no error is raised and the result silently depends on
whatever data lies at the out-of-range location, modelled here by the total
extension of the tensors. -/

/-- Basis table whose only entry references plus triangle 1, outside a
one-triangle tensor extent. -/
def basisC4 : List BasisEntry := [⟨1, 0, 0, 0⟩]

/-- One extension of a one-triangle vector tensor: zero everywhere. -/
def vfC4a : ℕ → ℕ → ℕ → ℕ → ℂ := fun _ _ _ _ => 0

/-- Another extension that agrees with vfC4a on the in-range block
(p < 1, q < 1) but differs out of range. -/
def vfC4b : ℕ → ℕ → ℕ → ℕ → ℂ := fun p q _ _ => if p = 1 ∧ q = 1 then 1 else 0

/-- Zero scalar tensor fixture. -/
def sfZ : ℕ → ℕ → ℂ := fun _ _ => 0

/-- Counterexample to claim C4 as frozen: on a basis table referencing
triangle 1 when only triangle 0 is present, the converter raises nothing and
returns a matrix; its value is read from the out-of-range extension, so the
two extensions vfC4a and vfC4b, which agree on the one-triangle in-range
block, give different results. -/
theorem claim_C4_counterexample :
    (triangle_face_to_rwg basisC4 vfC4b sfZ).1 = [[1]] ∧
    (triangle_face_to_rwg basisC4 vfC4a sfZ).1 = [[0]] := by
  constructor <;>
    norm_num [triangle_face_to_rwg, basisC4, vfC4a, vfC4b, sfZ, List.range_succ]

/-- Claim C4 (amended): with an index table referencing an entry not present
in the supplied tensors (a plus-triangle index at or beyond the tensor
extent num_triangles), the converter performs no validation and raises no
error: it returns the signed combination of the total extension values at
the referenced indices, silently reading past the intended range. -/
theorem claim_C4_no_error (basis : List BasisEntry)
    (vector_face : ℕ → ℕ → ℕ → ℕ → ℂ) (scalar_face : ℕ → ℕ → ℂ)
    (num_triangles m n : ℕ) (hm : m < basis.length) (hn : n < basis.length)
    (hout : num_triangles ≤ (basis.getD m defaultBasis).tri_p) :
    (((triangle_face_to_rwg basis vector_face scalar_face).1.getD m []).getD n 0) =
      vector_face (basis.getD m defaultBasis).tri_p (basis.getD n defaultBasis).tri_p
          (basis.getD m defaultBasis).node_p (basis.getD n defaultBasis).node_p
        - vector_face (basis.getD m defaultBasis).tri_p (basis.getD n defaultBasis).tri_m
          (basis.getD m defaultBasis).node_p (basis.getD n defaultBasis).node_m
        - vector_face (basis.getD m defaultBasis).tri_m (basis.getD n defaultBasis).tri_p
          (basis.getD m defaultBasis).node_m (basis.getD n defaultBasis).node_p
        + vector_face (basis.getD m defaultBasis).tri_m (basis.getD n defaultBasis).tri_m
          (basis.getD m defaultBasis).node_m (basis.getD n defaultBasis).node_m ∧
    (((triangle_face_to_rwg basis vector_face scalar_face).2.getD m []).getD n 0) =
      - scalar_face (basis.getD m defaultBasis).tri_m (basis.getD n defaultBasis).tri_p
        + scalar_face (basis.getD m defaultBasis).tri_m (basis.getD n defaultBasis).tri_m
        + scalar_face (basis.getD m defaultBasis).tri_p (basis.getD n defaultBasis).tri_p
        - scalar_face (basis.getD m defaultBasis).tri_p (basis.getD n defaultBasis).tri_m :=
  ⟨triangle_face_to_rwg_vector_entry basis vector_face scalar_face m n hm hn,
    triangle_face_to_rwg_scalar_entry basis vector_face scalar_face m n hm hn⟩

/-- Witness for claim C4 at the one-triangle fixture: the basis references
triangle 1 although num_triangles = 1, and the converter still returns the
signed combination of the extension values. -/
theorem claim_C4_witness :
    (((triangle_face_to_rwg basisC4 vfC4b sfZ).1.getD 0 []).getD 0 0) =
      vfC4b (basisC4.getD 0 defaultBasis).tri_p (basisC4.getD 0 defaultBasis).tri_p
          (basisC4.getD 0 defaultBasis).node_p (basisC4.getD 0 defaultBasis).node_p
        - vfC4b (basisC4.getD 0 defaultBasis).tri_p (basisC4.getD 0 defaultBasis).tri_m
          (basisC4.getD 0 defaultBasis).node_p (basisC4.getD 0 defaultBasis).node_m
        - vfC4b (basisC4.getD 0 defaultBasis).tri_m (basisC4.getD 0 defaultBasis).tri_p
          (basisC4.getD 0 defaultBasis).node_m (basisC4.getD 0 defaultBasis).node_p
        + vfC4b (basisC4.getD 0 defaultBasis).tri_m (basisC4.getD 0 defaultBasis).tri_m
          (basisC4.getD 0 defaultBasis).node_m (basisC4.getD 0 defaultBasis).node_m :=
  (claim_C4_no_error basisC4 vfC4b sfZ 1 0 0 (by decide) (by decide) (by decide)).1

/-! Claim C5: effect of swapping the plus and minus data of one basis
function. -/

/-- Entry (m, n) of the vector_rwg matrix. -/
def vec_entry (basis : List BasisEntry) (vf : ℕ → ℕ → ℕ → ℕ → ℂ) (sf : ℕ → ℕ → ℂ)
    (m n : ℕ) : ℂ :=
  ((triangle_face_to_rwg basis vf sf).1.getD m []).getD n 0

/-- Entry (m, n) of the scalar_rwg matrix. -/
def sca_entry (basis : List BasisEntry) (vf : ℕ → ℕ → ℕ → ℕ → ℂ) (sf : ℕ → ℕ → ℂ)
    (m n : ℕ) : ℂ :=
  ((triangle_face_to_rwg basis vf sf).2.getD m []).getD n 0

/-- The basis table with the plus and minus triangle and free-node data of
basis function m exchanged. -/
def swap_basis (basis : List BasisEntry) (m : ℕ) : List BasisEntry :=
  basis.set m
    ⟨(basis.getD m defaultBasis).tri_m, (basis.getD m defaultBasis).tri_p,
      (basis.getD m defaultBasis).node_m, (basis.getD m defaultBasis).node_p⟩

/-- Swapping one entry preserves the number of basis functions. -/
lemma swap_basis_length (basis : List BasisEntry) (m : ℕ) :
    (swap_basis basis m).length = basis.length := by
  simp [swap_basis]

/-- The swapped table holds the exchanged record at position m. -/
lemma swap_basis_getD_self (basis : List BasisEntry) (m : ℕ) (hm : m < basis.length) :
    (swap_basis basis m).getD m defaultBasis =
      ⟨(basis.getD m defaultBasis).tri_m, (basis.getD m defaultBasis).tri_p,
        (basis.getD m defaultBasis).node_m, (basis.getD m defaultBasis).node_p⟩ := by
  unfold swap_basis
  rw [List.getD_eq_getElem?_getD, List.getElem?_set_self hm]
  rfl

/-- The swapped table is unchanged at every other position. -/
lemma swap_basis_getD_other (basis : List BasisEntry) (m k : ℕ) (hkm : k ≠ m) :
    (swap_basis basis m).getD k defaultBasis = basis.getD k defaultBasis := by
  unfold swap_basis
  simp [List.getD_eq_getElem?_getD, List.getElem?_set_ne (Ne.symm hkm)]

/-- Claim C5 (amended): swapping the plus/minus data of basis function m
negates every off-diagonal entry of vector_rwg and scalar_rwg in row m or
column m and negates the excitation value V[m]; entries not involving m and
excitation values of other basis functions are unchanged.  The diagonal
entry (m, m), in which m enters as both observer and source, is negated
twice and therefore unchanged, not negated as the frozen claim states. -/
theorem claim_C5_swap (basis : List BasisEntry) (vf : ℕ → ℕ → ℕ → ℕ → ℂ) (sf : ℕ → ℕ → ℂ)
    (nodes : ℕ → Fin 3 → ℝ) (triangle_nodes : List (Fin 3 → ℕ))
    (xi_eta_eval : List (ℝ × ℝ)) (weights : List ℝ) (e_inc jk_inc : Fin 3 → ℂ)
    (m n k : ℕ) (hm : m < basis.length) (hn : n < basis.length) (hk : k < basis.length)
    (hnm : n ≠ m) (hkm : k ≠ m) :
    (vec_entry (swap_basis basis m) vf sf m n = - vec_entry basis vf sf m n ∧
      vec_entry (swap_basis basis m) vf sf n m = - vec_entry basis vf sf n m ∧
      sca_entry (swap_basis basis m) vf sf m n = - sca_entry basis vf sf m n ∧
      sca_entry (swap_basis basis m) vf sf n m = - sca_entry basis vf sf n m) ∧
    (vec_entry (swap_basis basis m) vf sf m m = vec_entry basis vf sf m m ∧
      sca_entry (swap_basis basis m) vf sf m m = sca_entry basis vf sf m m) ∧
    (vec_entry (swap_basis basis m) vf sf n k = vec_entry basis vf sf n k ∧
      sca_entry (swap_basis basis m) vf sf n k = sca_entry basis vf sf n k) ∧
    ((voltage_plane_wave nodes triangle_nodes (swap_basis basis m) xi_eta_eval weights
        e_inc jk_inc).getD m 0 =
      -((voltage_plane_wave nodes triangle_nodes basis xi_eta_eval weights
        e_inc jk_inc).getD m 0) ∧
      (voltage_plane_wave nodes triangle_nodes (swap_basis basis m) xi_eta_eval weights
        e_inc jk_inc).getD n 0 =
      (voltage_plane_wave nodes triangle_nodes basis xi_eta_eval weights
        e_inc jk_inc).getD n 0) := by
  have hL := swap_basis_length basis m
  have hm2 : m < (swap_basis basis m).length := by rw [hL]; exact hm
  have hn2 : n < (swap_basis basis m).length := by rw [hL]; exact hn
  have hk2 : k < (swap_basis basis m).length := by rw [hL]; exact hk
  have hs := swap_basis_getD_self basis m hm
  have hon := swap_basis_getD_other basis m n hnm
  have hok := swap_basis_getD_other basis m k hkm
  refine ⟨⟨?_, ?_, ?_, ?_⟩, ⟨?_, ?_⟩, ⟨?_, ?_⟩, ?_, ?_⟩
  · unfold vec_entry
    rw [triangle_face_to_rwg_vector_entry _ vf sf m n hm2 hn2,
      triangle_face_to_rwg_vector_entry _ vf sf m n hm hn, hs, hon]
    dsimp only
    ring
  · unfold vec_entry
    rw [triangle_face_to_rwg_vector_entry _ vf sf n m hn2 hm2,
      triangle_face_to_rwg_vector_entry _ vf sf n m hn hm, hs, hon]
    dsimp only
    ring
  · unfold sca_entry
    rw [triangle_face_to_rwg_scalar_entry _ vf sf m n hm2 hn2,
      triangle_face_to_rwg_scalar_entry _ vf sf m n hm hn, hs, hon]
    dsimp only
    ring
  · unfold sca_entry
    rw [triangle_face_to_rwg_scalar_entry _ vf sf n m hn2 hm2,
      triangle_face_to_rwg_scalar_entry _ vf sf n m hn hm, hs, hon]
    dsimp only
    ring
  · unfold vec_entry
    rw [triangle_face_to_rwg_vector_entry _ vf sf m m hm2 hm2,
      triangle_face_to_rwg_vector_entry _ vf sf m m hm hm, hs]
    dsimp only
    ring
  · unfold sca_entry
    rw [triangle_face_to_rwg_scalar_entry _ vf sf m m hm2 hm2,
      triangle_face_to_rwg_scalar_entry _ vf sf m m hm hm, hs]
    dsimp only
    ring
  · unfold vec_entry
    rw [triangle_face_to_rwg_vector_entry _ vf sf n k hn2 hk2,
      triangle_face_to_rwg_vector_entry _ vf sf n k hn hk, hon, hok]
  · unfold sca_entry
    rw [triangle_face_to_rwg_scalar_entry _ vf sf n k hn2 hk2,
      triangle_face_to_rwg_scalar_entry _ vf sf n k hn hk, hon, hok]
  · rw [voltage_plane_wave_getD nodes triangle_nodes (swap_basis basis m) xi_eta_eval
      weights e_inc jk_inc m hm2,
      voltage_plane_wave_getD nodes triangle_nodes basis xi_eta_eval
      weights e_inc jk_inc m hm]
    simp only [Vval, hs]
    ring
  · rw [voltage_plane_wave_getD nodes triangle_nodes (swap_basis basis m) xi_eta_eval
      weights e_inc jk_inc n hn2,
      voltage_plane_wave_getD nodes triangle_nodes basis xi_eta_eval
      weights e_inc jk_inc n hn]
    simp only [Vval, hon]

/-- Vector tensor fixture that is 1 on the (0, 0) triangle pair. -/
def vfC5 : ℕ → ℕ → ℕ → ℕ → ℂ := fun p q _ _ => if p = 0 ∧ q = 0 then 1 else 0

/-- Counterexample to claim C5 as frozen: for the single basis function of
basisW the diagonal entry (0, 0) of vector_rwg lies in row 0 and column 0,
but swapping the plus/minus data of basis function 0 leaves it equal to 1
instead of negating it: the swap negates the observer and the source roles
simultaneously, so the diagonal entry is unchanged. -/
theorem claim_C5_counterexample :
    ¬ ((((triangle_face_to_rwg (swap_basis basisW 0) vfC5 sfZ).1.getD 0 []).getD 0 0) =
      -(((triangle_face_to_rwg basisW vfC5 sfZ).1.getD 0 []).getD 0 0)) := by
  norm_num [triangle_face_to_rwg, swap_basis, basisW, vfC5, sfZ, List.range_succ,
    defaultBasis]

/-- Two-basis-function fixture used as the witness instance for claim C5. -/
def basisW2 : List BasisEntry := [⟨0, 1, 0, 0⟩, ⟨1, 0, 1, 1⟩]

/-- Witness for claim C5 at a concrete two-basis-function table: the
off-diagonal entry (0, 1) of vector_rwg is negated by the swap of basis
function 0, and the excitation value V[0] is negated. -/
theorem claim_C5_witness :
    vec_entry (swap_basis basisW2 0) vfC5 sfZ 0 1 = - vec_entry basisW2 vfC5 sfZ 0 1 ∧
    (voltage_plane_wave nodesW trisW (swap_basis basisW2 0) xiQ wQ eW jkW).getD 0 0 =
      -((voltage_plane_wave nodesW trisW basisW2 xiQ wQ eW jkW).getD 0 0) :=
  ⟨(claim_C5_swap basisW2 vfC5 sfZ nodesW trisW xiQ wQ eW jkW 0 1 1 (by decide) (by decide)
      (by decide) (by decide) (by decide)).1.1,
    (claim_C5_swap basisW2 vfC5 sfZ nodesW trisW xiQ wQ eW jkW 0 1 1 (by decide) (by decide)
      (by decide) (by decide) (by decide)).2.2.2.1⟩

/-! Claim C6: linearity of the excitation vector in the field amplitude. -/

/-- Zipping two maps over the same list combines them pointwise. -/
lemma zipWith_map_same {α β : Type} (f : β → β → β) (g h : α → β) (l : List α) :
    List.zipWith f (l.map g) (l.map h) = l.map fun x => f (g x) (h x) := by
  induction l with
  | nil => simp
  | cons a t ih => simp [ih]

/-- The source integral is additive in the incident field amplitude. -/
lemma source_integral_plane_wave_add (xi_eta_o : List (ℝ × ℝ)) (weights_o : List ℝ)
    (nodes_o : Fin 3 → Fin 3 → ℝ) (jk_inc e1 e2 : Fin 3 → ℂ) (a : Fin 3) :
    source_integral_plane_wave xi_eta_o weights_o nodes_o jk_inc (fun i => e1 i + e2 i) a =
      source_integral_plane_wave xi_eta_o weights_o nodes_o jk_inc e1 a +
        source_integral_plane_wave xi_eta_o weights_o nodes_o jk_inc e2 a := by
  simp only [source_integral_plane_wave_eq_sum]
  rw [← Finset.sum_add_distrib]
  refine Finset.sum_congr rfl fun c _ => ?_
  rw [← add_mul]
  congr 1
  rw [← Finset.sum_add_distrib]
  refine Finset.sum_congr rfl fun i _ => ?_
  ring

/-- The source integral of the zero field is zero. -/
lemma source_integral_plane_wave_zero (xi_eta_o : List (ℝ × ℝ)) (weights_o : List ℝ)
    (nodes_o : Fin 3 → Fin 3 → ℝ) (jk_inc : Fin 3 → ℂ) (a : Fin 3) :
    source_integral_plane_wave xi_eta_o weights_o nodes_o jk_inc (fun _ => 0) a = 0 := by
  simp [source_integral_plane_wave_eq_sum]

/-- The assembled V_face buffer is additive in the field amplitude. -/
lemma assemble_V_face_add (xi_eta_eval : List (ℝ × ℝ)) (weights : List ℝ)
    (nodes : ℕ → Fin 3 → ℝ) (triangle_nodes : List (Fin 3 → ℕ)) (jk_inc e1 e2 : Fin 3 → ℂ)
    (sched : List ℕ) (q : ℕ) (a : Fin 3) :
    assemble_V_face xi_eta_eval weights nodes triangle_nodes jk_inc
        (fun i => e1 i + e2 i) sched q a =
      assemble_V_face xi_eta_eval weights nodes triangle_nodes jk_inc e1 sched q a +
        assemble_V_face xi_eta_eval weights nodes triangle_nodes jk_inc e2 sched q a := by
  rw [assemble_V_face_char, assemble_V_face_char, assemble_V_face_char]
  by_cases h : q ∈ sched
  · simp only [h, if_pos]
    exact source_integral_plane_wave_add xi_eta_eval weights _ jk_inc e1 e2 a
  · simp [h]

/-- The assembled V_face buffer of the zero field is identically zero. -/
lemma assemble_V_face_zero (xi_eta_eval : List (ℝ × ℝ)) (weights : List ℝ)
    (nodes : ℕ → Fin 3 → ℝ) (triangle_nodes : List (Fin 3 → ℕ)) (jk_inc : Fin 3 → ℂ)
    (sched : List ℕ) (q : ℕ) (a : Fin 3) :
    assemble_V_face xi_eta_eval weights nodes triangle_nodes jk_inc
      (fun _ => 0) sched q a = 0 := by
  rw [assemble_V_face_char]
  by_cases h : q ∈ sched
  · simp only [h, if_pos]
    exact source_integral_plane_wave_zero xi_eta_eval weights _ jk_inc a
  · simp [h]

/-- Reading a component commutes with pointwise addition of rows. -/
lemma getc_add (r1 r2 : Fin 3 → ℂ) (i : ℕ) :
    getc (fun c => r1 c + r2 c) i = getc r1 i + getc r2 i := by
  unfold getc
  by_cases h : i < 3 <;> simp [h]

/-- Reading a component of the zero row gives zero. -/
lemma getc_zero (i : ℕ) : getc (fun _ => 0) i = 0 := by
  unfold getc
  by_cases h : i < 3 <;> simp [h]

/-- The per-basis value is additive in the face buffer. -/
lemma Vval_add (basis : List BasisEntry) (Vf1 Vf2 : ℕ → Fin 3 → ℂ) (m : ℕ) :
    Vval basis (fun p c => Vf1 p c + Vf2 p c) m = Vval basis Vf1 m + Vval basis Vf2 m := by
  simp only [Vval]
  rw [getc_add, getc_add]
  ring

/-- Claim C6: the excitation vector is linear in the field amplitude: with
all other inputs identical, V computed with e_inc1 + e_inc2 is the
componentwise sum of V computed with e_inc1 and V computed with e_inc2, and
with e_inc = (0, 0, 0) the excitation vector is exactly zero for any mesh
and basis table. -/
theorem claim_C6_linearity (nodes : ℕ → Fin 3 → ℝ) (triangle_nodes : List (Fin 3 → ℕ))
    (basis : List BasisEntry) (xi_eta_eval : List (ℝ × ℝ)) (weights : List ℝ)
    (jk_inc e1 e2 : Fin 3 → ℂ) :
    voltage_plane_wave nodes triangle_nodes basis xi_eta_eval weights (e1 + e2) jk_inc =
      List.zipWith (fun x y => x + y)
        (voltage_plane_wave nodes triangle_nodes basis xi_eta_eval weights e1 jk_inc)
        (voltage_plane_wave nodes triangle_nodes basis xi_eta_eval weights e2 jk_inc) ∧
    voltage_plane_wave nodes triangle_nodes basis xi_eta_eval weights (fun _ => 0) jk_inc =
      List.replicate basis.length 0 := by
  constructor
  · rw [voltage_plane_wave_eq_map, voltage_plane_wave_eq_map, voltage_plane_wave_eq_map,
      zipWith_map_same]
    refine List.map_congr_left fun m _ => ?_
    have he : (e1 + e2) = fun i => e1 i + e2 i := rfl
    rw [he]
    have hVf : assemble_V_face xi_eta_eval weights nodes triangle_nodes jk_inc
        (fun i => e1 i + e2 i) (List.range triangle_nodes.length) =
        fun p c => assemble_V_face xi_eta_eval weights nodes triangle_nodes jk_inc e1
            (List.range triangle_nodes.length) p c +
          assemble_V_face xi_eta_eval weights nodes triangle_nodes jk_inc e2
            (List.range triangle_nodes.length) p c := by
      funext p c
      exact assemble_V_face_add xi_eta_eval weights nodes triangle_nodes jk_inc e1 e2 _ p c
    rw [hVf, Vval_add]
  · rw [voltage_plane_wave_eq_map]
    have hVf : assemble_V_face xi_eta_eval weights nodes triangle_nodes jk_inc
        (fun _ => 0) (List.range triangle_nodes.length) = fun _ _ => 0 := by
      funext p c
      exact assemble_V_face_zero xi_eta_eval weights nodes triangle_nodes jk_inc _ p c
    rw [hVf]
    refine List.eq_replicate_iff.mpr ⟨by simp, fun b hb => ?_⟩
    simp only [List.mem_map] at hb
    obtain ⟨m, _, rfl⟩ := hb
    simp [Vval, getc_zero]

/-- Claim C7: the complex exponential used by the Single-Pair Source
Integrator is computed as exp(re z) * (cos(im z) + i sin(im z)) from the
real-valued exp, cos and sin, and for every complex argument this
decomposition equals the mathematical complex exponential. -/
theorem claim_C7_cexp (z : ℂ) :
    cexp z =
      (Real.exp z.re : ℂ) * ((Real.cos z.im : ℂ) + Complex.I * (Real.sin z.im : ℂ)) ∧
    cexp z = Complex.exp z :=
  ⟨rfl, cexp_eq_complex_exp z⟩

/-- Claim C8: within one excitation-vector computation every cell of the
output buffers is written by exactly one loop iteration: iteration p of the
per-triangle loop writes only row p of V_face and the value it writes does
not depend on the buffer contents, and iteration m of the per-basis loop
writes only V[m], its value likewise independent of the V buffer. -/
theorem claim_C8_write_partition (xi_eta_eval : List (ℝ × ℝ)) (weights : List ℝ)
    (nodes : ℕ → Fin 3 → ℝ) (triangle_nodes : List (Fin 3 → ℕ)) (jk_inc e_inc : Fin 3 → ℂ)
    (basis : List BasisEntry) (V_face : ℕ → Fin 3 → ℂ)
    (bufF bufF2 : ℕ → Fin 3 → ℂ) (bufV bufV2 : ℕ → ℂ) (p q m k : ℕ)
    (hq : q ≠ p) (hk : k ≠ m) :
    V_face_step xi_eta_eval weights nodes triangle_nodes jk_inc e_inc bufF p q = bufF q ∧
    V_face_step xi_eta_eval weights nodes triangle_nodes jk_inc e_inc bufF p p =
      V_face_step xi_eta_eval weights nodes triangle_nodes jk_inc e_inc bufF2 p p ∧
    V_step basis V_face bufV m k = bufV k ∧
    V_step basis V_face bufV m m = V_step basis V_face bufV2 m m := by
  refine ⟨?_, ?_, ?_, ?_⟩
  · unfold V_face_step
    exact Function.update_noteq hq _ _
  · unfold V_face_step
    rw [Function.update_same, Function.update_same]
  · unfold V_step
    exact Function.update_noteq hk _ _
  · unfold V_step
    rw [Function.update_same, Function.update_same]

/-- Zero face buffer fixture. -/
def bufF0 : ℕ → Fin 3 → ℂ := fun _ _ => 0

/-- Zero voltage buffer fixture. -/
def bufV0 : ℕ → ℂ := fun _ => 0

/-- Witness for claim C8 at concrete buffers and iteration indices. -/
theorem claim_C8_witness :
    V_face_step xiQ wQ nodesW trisW jkW eW bufF0 0 1 = bufF0 1 ∧
    V_face_step xiQ wQ nodesW trisW jkW eW bufF0 0 0 =
      V_face_step xiQ wQ nodesW trisW jkW eW bufF0 0 0 ∧
    V_step basisW bufF0 bufV0 0 1 = bufV0 1 ∧
    V_step basisW bufF0 bufV0 0 0 = V_step basisW bufF0 bufV0 0 0 :=
  claim_C8_write_partition xiQ wQ nodesW trisW jkW eW basisW bufF0 bufF0 bufF0 bufV0 bufV0
    0 1 0 1 (by decide) (by decide)

/-- Claim C9: both public operations are deterministic.  The excitation
vector does not depend on the order in which the two parallel loops process
their iteration spaces: any schedules that are permutations of the full
index ranges produce the same vector as the canonical in-order run; and two
runs of the converter on equal inputs return equal matrices. -/
theorem claim_C9_deterministic (nodes : ℕ → Fin 3 → ℝ) (triangle_nodes : List (Fin 3 → ℕ))
    (basis : List BasisEntry) (xi_eta_eval : List (ℝ × ℝ)) (weights : List ℝ)
    (e_inc jk_inc : Fin 3 → ℂ) (sched_faces sched_basis : List ℕ)
    (hf : sched_faces.Perm (List.range triangle_nodes.length))
    (hb : sched_basis.Perm (List.range basis.length)) :
    voltage_plane_wave_sched nodes triangle_nodes basis xi_eta_eval weights e_inc jk_inc
        sched_faces sched_basis =
      voltage_plane_wave nodes triangle_nodes basis xi_eta_eval weights e_inc jk_inc ∧
    ∀ (b1 b2 : List BasisEntry) (vf1 vf2 : ℕ → ℕ → ℕ → ℕ → ℂ) (sf1 sf2 : ℕ → ℕ → ℂ),
      b1 = b2 → vf1 = vf2 → sf1 = sf2 →
      triangle_face_to_rwg b1 vf1 sf1 = triangle_face_to_rwg b2 vf2 sf2 := by
  constructor
  · have hVf : assemble_V_face xi_eta_eval weights nodes triangle_nodes jk_inc e_inc
        sched_faces =
        assemble_V_face xi_eta_eval weights nodes triangle_nodes jk_inc e_inc
        (List.range triangle_nodes.length) := by
      funext q
      rw [assemble_V_face_char, assemble_V_face_char]
      by_cases h : q ∈ sched_faces
      · simp [h, hf.mem_iff.mp h]
      · have h2 : q ∉ List.range triangle_nodes.length := fun hc => h (hf.mem_iff.mpr hc)
        simp [h, h2]
    simp only [voltage_plane_wave, voltage_plane_wave_sched, hVf]
    refine List.map_congr_left fun m hm => ?_
    rw [assemble_V_char, assemble_V_char]
    simp only [List.mem_range] at hm
    simp [hb.mem_iff, List.mem_range, hm]
  · intro b1 b2 vf1 vf2 sf1 sf2 h1 h2 h3
    rw [h1, h2, h3]

/-- Witness for claim C9: a reversed face schedule and the canonical basis
schedule give the canonical result on a concrete two-triangle mesh. -/
theorem claim_C9_witness :
    voltage_plane_wave_sched nodesW trisW basisW xiQ wQ eW jkW [1, 0] [0] =
      voltage_plane_wave nodesW trisW basisW xiQ wQ eW jkW :=
  (claim_C9_deterministic nodesW trisW basisW xiQ wQ eW jkW [1, 0] [0]
    (by decide) (by decide)).1

/-- Claim C10: with empty quadrature arrays the Single-Pair Source
Integrator terminates and returns exactly (0, 0, 0) regardless of the
triangle, jk_inc and e_inc, and voltage_plane_wave returns the all-zero
excitation vector. -/
theorem claim_C10_empty_quadrature (nodes_o : Fin 3 → Fin 3 → ℝ) (jk_inc e_inc : Fin 3 → ℂ)
    (nodes : ℕ → Fin 3 → ℝ) (triangle_nodes : List (Fin 3 → ℕ)) (basis : List BasisEntry)
    (a : Fin 3) :
    source_integral_plane_wave [] [] nodes_o jk_inc e_inc a = 0 ∧
    voltage_plane_wave nodes triangle_nodes basis [] [] e_inc jk_inc =
      List.replicate basis.length 0 := by
  constructor
  · rfl
  · rw [voltage_plane_wave_eq_map]
    have hVf : assemble_V_face [] [] nodes triangle_nodes jk_inc e_inc
        (List.range triangle_nodes.length) = fun _ _ => 0 := by
      funext q c
      rw [assemble_V_face_char]
      by_cases h : q ∈ List.range triangle_nodes.length
      · simp only [h, if_pos]
        rfl
      · simp [h]
    rw [hVf]
    refine List.eq_replicate_iff.mpr ⟨by simp, fun b hb => ?_⟩
    simp only [List.mem_map] at hb
    obtain ⟨m, _, rfl⟩ := hb
    simp [Vval, getc_zero]

end OpenModes

end
